import Mathlib

/-! # Advisory locking and memory mapping of the page file (`pages/pages_unix.go`)

A shallow embedding of `flock`, `mmap`, `munmap` and `madvise`.

The operating system and the Go runtime are an explicit `World` that is passed
through every call.  The world answers the calls the source makes
(`syscall.Flock`, `time.Now`, `time.Since`, `time.Sleep`, `syscall.Mmap`,
the `madvise` system call, `syscall.Munmap`) and records each of them, with its
arguments and its answer, in a chronological `trace`.

* Instants and durations are integers counting nanoseconds; an instant is
  counted from the zero `time.Time`, so `t.IsZero()` is `t = 0`. A
  `time.Duration` is a 64-bit integer: `time.Since` is the difference of two
  instants saturated at `math.MinInt64` and `math.MaxInt64` (`satDuration`).
* `dataref`, `data` and `datasz` are written only by `mmap` and `munmap`; the
  `DB` states these produce from a fresh `DB` are the `Reachable` ones.
* Time passes while a lock attempt is under way (`flockDur`) and while the
  caller sleeps (the duration asked for plus `oversleep`); reading the clock
  takes no time.
* The answers of the lock call are a stream: `flockResp 0` is the answer to the
  next call, `flockResp 1` to the one after, and so on.
* `flock` is an unbounded `for` loop; `flockLoop` runs it with a bound on the
  number of iterations and yields `none` when the bound is used up.
-/

namespace Pages

/-! ## Values -/

/-- A `syscall.Errno`. -/
abbrev Errno := Nat

/-- An instant, in nanoseconds since the zero `time.Time`. -/
abbrev Time := Int

/-- A `time.Duration`, in nanoseconds. -/
abbrev Duration := Int

/-- A non-nil `[]byte`: the address of its first byte and its length. -/
structure Slice where
  base : Nat
  len : Nat
deriving DecidableEq

/-- The `error` values the functions of this file return. -/
inductive GoError
  | errno (e : Errno)
  | ErrTimeout
  | errorf (format : String) (arg : Errno)
deriving DecidableEq

/-- The result of a call that may panic instead of returning. -/
inductive Outcome (α : Type)
  | ret (v : α)
  | panic
deriving DecidableEq

/-- One call to the platform, with its arguments and its answer. -/
inductive Event
  | Now (r : Time)
  | Since (t : Time) (d : Duration)
  | Flock (fd : Int) (how : Nat) (r : Option Errno)
  | Sleep (d : Duration)
  | Mmap (fd : Int) (offset : Int) (length : Int) (prot : Nat) (flags : Nat) (r : Errno ⊕ Slice)
  | Madvise (addr : Nat) (len : Nat) (advice : Nat) (e1 : Errno)
  | Munmap (b : Slice) (r : Option Errno)
deriving DecidableEq

/-- The fields of `DB` that this file reads and writes. `fd` is `pb.file.Fd()`;
`dataref` and `data` are `none` when nil. -/
structure DB where
  fd : Int
  MmapFlags : Nat
  dataref : Option Slice
  data : Option Nat
  datasz : Int
deriving DecidableEq

/-! ## Constants (linux) -/

def ENOMEM : Errno := 12
def EINVAL : Errno := 22
def EWOULDBLOCK : Errno := 11
def LOCK_SH : Nat := 1
def LOCK_EX : Nat := 2
def LOCK_NB : Nat := 4
def PROT_READ : Nat := 1
def MAP_SHARED : Nat := 1
def MADV_RANDOM : Nat := 1
def Millisecond : Duration := 1000000

/-- The largest `time.Duration`, `math.MaxInt64` nanoseconds. -/
def maxDuration : Duration := 9223372036854775807

/-- The smallest `time.Duration`, `math.MinInt64` nanoseconds. -/
def minDuration : Duration := -9223372036854775808

/-- A difference of instants as the `time.Duration` that `Time.Sub` returns: it
is saturated at `minDuration` and `maxDuration`. -/
def satDuration (d : Int) : Duration :=
  if d < minDuration then minDuration
  else if maxDuration < d then maxDuration
  else d

/-- Modelled from the spec: the constant `maxMapSize` is declared in another
file of the package; the spec calls it the "fixed maximum representable region
size (platform pointer-width dependent)". The value is the one of a 64-bit
platform (256TB). In `mmap` it occurs only in the type of the pointer stored in
`data`, `(*[maxMapSize]byte)(unsafe.Pointer(&b[0]))`, which is modelled by the
address of `b[0]`. -/
def maxMapSize : Int := 0xFFFFFFFFFFFF

/-! ## The platform -/

/-- The state of the platform.

* `clock`: the present instant.
* `flockResp`: the answers of the coming `syscall.Flock` calls.
* `flockDur`: the time each of the coming `syscall.Flock` calls takes.
* `oversleep`: the time each of the coming `time.Sleep` calls takes beyond the
  duration asked for.
* `mmapAddr`: the answer of the kernel to a mapping request, given the calls
  made so far: an errno or the address of the new region.
* `madviseErr`: the errno (`0` when there is none) of the `madvise` system call.
* `munmapErr`: the answer of `syscall.Munmap`.
* `trace`: the calls made so far, oldest first. -/
structure World where
  clock : Time
  flockResp : Nat → Option Errno
  flockDur : Nat → Nat
  oversleep : Nat → Nat
  mmapAddr : List Event → Int → Int → Int → Nat → Nat → Errno ⊕ Nat
  madviseErr : List Event → Nat → Nat → Nat → Errno
  munmapErr : List Event → Slice → Option Errno
  trace : List Event

/-- Append a call to the trace. -/
def World.log (w : World) (e : Event) : World :=
  { w with trace := w.trace ++ [e] }

/-- `t.IsZero()`. -/
def IsZero (t : Time) : Bool := t == 0

/-- `time.Now()`. -/
def Now (w : World) : Time × World :=
  (w.clock, w.log (.Now w.clock))

/-- `time.Since(t)`: the time elapsed from `t` to the present instant, as a
`time.Duration`. -/
def Since (t : Time) (w : World) : Duration × World :=
  (satDuration (w.clock - t), w.log (.Since t (satDuration (w.clock - t))))

/-- `time.Sleep(d)`: returns at once when `d <= 0`, otherwise after `d` and
whatever the scheduler adds. -/
def Sleep (d : Duration) (w : World) : World :=
  if d ≤ 0 then w.log (.Sleep d)
  else
    { w with
      clock := w.clock + d + (w.oversleep 0 : Int)
      oversleep := fun k => w.oversleep (k + 1)
      trace := w.trace ++ [.Sleep d] }

/-- `syscall.Flock(fd, how)`: takes the next answer of the stream. -/
def sysFlock (fd : Int) (how : Nat) (w : World) : Option Errno × World :=
  (w.flockResp 0,
    { w with
      clock := w.clock + (w.flockDur 0 : Int)
      flockResp := fun k => w.flockResp (k + 1)
      flockDur := fun k => w.flockDur (k + 1)
      trace := w.trace ++ [.Flock fd how (w.flockResp 0)] })

/-- `syscall.Mmap(fd, offset, length, prot, flags)` of the Go library: a
`length <= 0` is refused with `EINVAL`; otherwise the kernel is asked and its
address is turned into a slice of exactly `length` bytes. -/
def sysMmap (fd offset length : Int) (prot flags : Nat) (w : World) :
    (Errno ⊕ Slice) × World :=
  let r : Errno ⊕ Slice :=
    if length ≤ 0 then .inl EINVAL
    else
      match w.mmapAddr w.trace fd offset length prot flags with
      | .inl e => .inl e
      | .inr a => .inr ⟨a, length.toNat⟩
  (r, w.log (.Mmap fd offset length prot flags r))

/-- `syscall.Munmap(b)`. -/
def sysMunmap (b : Slice) (w : World) : Option Errno × World :=
  (w.munmapErr w.trace b, w.log (.Munmap b (w.munmapErr w.trace b)))

/-- `syscall.Syscall(syscall.SYS_MADVISE, addr, len, advice)`: the errno `e1`. -/
def sysMadvise (addr len advice : Nat) (w : World) : Errno × World :=
  (w.madviseErr w.trace addr len advice,
    w.log (.Madvise addr len advice (w.madviseErr w.trace addr len advice)))

/-! ## `flock` (lines 14-40) -/

/-- Lines 24-38, the part of the loop body after the `if`/`else if` on `t`:
one lock attempt. `Sum.inl` is a `return`, `Sum.inr` goes round the loop again
with the given `t`. -/
def flockTry (pb : DB) (exclusive : Bool) (t : Time) (w : World) :
    (Option GoError × World) ⊕ (Time × World) :=
  let flag := if exclusive then LOCK_EX else LOCK_SH
  match sysFlock pb.fd (flag ||| LOCK_NB) w with
  | (none, w1) => .inl (none, w1)
  | (some err, w1) =>
    if err ≠ EWOULDBLOCK then .inl (some (.errno err), w1)
    else .inr (t, Sleep (50 * Millisecond) w1)

/-- Lines 17-38: one pass through the body of the `for` loop. -/
def flockIter (pb : DB) (exclusive : Bool) (timeout : Duration) (t : Time) (w : World) :
    (Option GoError × World) ⊕ (Time × World) :=
  if IsZero t then
    match Now w with
    | (t1, w1) => flockTry pb exclusive t1 w1
  else if 0 < timeout then
    match Since t w with
    | (d, w1) =>
      if timeout < d then .inl (some .ErrTimeout, w1)
      else flockTry pb exclusive t w1
  else flockTry pb exclusive t w

/-- The `for` loop of `flock`, entered with the given `t`, for at most `fuel`
passes. -/
def flockLoop : Nat → DB → Bool → Duration → Time → World → Option (Option GoError × World)
  | 0, _, _, _, _, _ => none
  | fuel + 1, pb, exclusive, timeout, t, w =>
    match flockIter pb exclusive timeout t w with
    | .inl r => some r
    | .inr (t1, w1) => flockLoop fuel pb exclusive timeout t1 w1

/-- `flock(pb, mode, exclusive, timeout)`: `var t time.Time` is the zero
instant; `mode` is not used by the body. -/
def flock (fuel : Nat) (pb : DB) (_mode : Nat) (exclusive : Bool) (timeout : Duration)
    (w : World) : Option (Option GoError × World) :=
  flockLoop fuel pb exclusive timeout 0 w

/-! ## `madvise`, `mmap`, `munmap` (lines 48-89) -/

/-- `madvise(b, advice)`. `&b[0]` panics on an empty slice. -/
def madvise (b : Slice) (advice : Nat) (w : World) : Outcome (Option Errno) × World :=
  if b.len = 0 then (.panic, w)
  else
    match sysMadvise b.base b.len advice w with
    | (e1, w1) => if e1 ≠ 0 then (.ret (some e1), w1) else (.ret none, w1)

/-- `mmap(pb, sz)`: the result, the `DB` and the world afterwards. -/
def mmap (pb : DB) (sz : Int) (w : World) : Outcome (Option GoError) × DB × World :=
  match sysMmap pb.fd 0 sz PROT_READ (MAP_SHARED ||| pb.MmapFlags) w with
  | (.inl err, w1) => (.ret (some (.errno err)), pb, w1)
  | (.inr b, w1) =>
    match madvise b MADV_RANDOM w1 with
    | (.panic, w2) => (.panic, pb, w2)
    | (.ret (some err), w2) => (.ret (some (.errorf "madvise: %s" err)), pb, w2)
    | (.ret none, w2) =>
      (.ret none, { pb with dataref := some b, data := some b.base, datasz := sz }, w2)

/-- `munmap(pb)`: the result, the `DB` and the world afterwards. -/
def munmap (pb : DB) (w : World) : Option GoError × DB × World :=
  match pb.dataref with
  | none => (none, pb, w)
  | some b =>
    match sysMunmap b w with
    | (err, w1) =>
      (err.map GoError.errno, { pb with dataref := none, data := none, datasz := 0 }, w1)

/-! ## Reading traces -/

/-- The call is a `syscall.Flock`. -/
def Event.isFlock : Event → Bool
  | .Flock _ _ _ => true
  | _ => false

/-- The call is a `time.Sleep`. -/
def Event.isSleep : Event → Bool
  | .Sleep _ => true
  | _ => false

/-- The call is the `madvise` system call. -/
def Event.isMadvise : Event → Bool
  | .Madvise _ _ _ _ => true
  | _ => false

/-- The call is a `syscall.Munmap`. -/
def Event.isMunmap : Event → Bool
  | .Munmap _ _ => true
  | _ => false

/-- No region is stored and no base or length is left over. -/
def DB.isEmpty (pb : DB) : Prop :=
  pb.dataref = none ∧ pb.data = none ∧ pb.datasz = 0

instance (pb : DB) : Decidable pb.isEmpty := by
  unfold DB.isEmpty; infer_instance

/-- The arguments `mmap` passes to `syscall.Mmap`, applied to the world. -/
def mapCall (pb : DB) (sz : Int) (w : World) : (Errno ⊕ Slice) × World :=
  sysMmap pb.fd 0 sz PROT_READ (MAP_SHARED ||| pb.MmapFlags) w

/-- The `DB` states the code produces: `dataref`, `data` and `datasz` are written
only by `mmap` (lines 61-63) and `munmap` (lines 76-78), so a `DB` is either
fresh, with none of the three set, or the result of one of the two on such a
`DB`, in whatever world. -/
inductive Reachable : DB → Prop
  | fresh (pb : DB) : pb.isEmpty → Reachable pb
  | afterMmap (pb : DB) (sz : Int) (w : World) :
      Reachable pb → Reachable (mmap pb sz w).2.1
  | afterMunmap (pb : DB) (w : World) :
      Reachable pb → Reachable (munmap pb w).2.1

/-! ## Example worlds -/

/-- A world in which nothing ever fails: the lock is free, every mapping is
granted at address `0x7f0000000000`, hints and unmaps succeed. -/
def calm : World where
  clock := 1000
  flockResp := fun _ => none
  flockDur := fun _ => 0
  oversleep := fun _ => 0
  mmapAddr := fun _ _ _ _ _ _ => .inr 0x7f0000000000
  madviseErr := fun _ _ _ _ => 0
  munmapErr := fun _ _ => none
  trace := []

/-- A `DB` on descriptor 3 with nothing mapped. -/
def db0 : DB where
  fd := 3
  MmapFlags := 0
  dataref := none
  data := none
  datasz := 0

/-- As `calm`, but the access-pattern hint is refused with `EINVAL`. -/
def hintFails : World :=
  { calm with madviseErr := fun _ _ _ _ => EINVAL }

/-- As `calm`, but every unmap is refused with `EINVAL`. -/
def unmapFails : World :=
  { calm with munmapErr := fun _ _ => some EINVAL }

/-- As `calm`, but the kernel refuses every mapping with `ENOMEM`. -/
def noMemory : World :=
  { calm with mmapAddr := fun _ _ _ _ _ _ => .inl ENOMEM }

/-- The outcome of `mmap` of 4096 bytes on `db0` in the world `calm`. -/
def calmMapped : Outcome (Option GoError) × DB × World :=
  mmap db0 4096 calm

/-- A `DB` on descriptor 3 holding a region of 4096 bytes. -/
def dbMapped : DB where
  fd := 3
  MmapFlags := 0
  dataref := some ⟨0x7f0000000000, 4096⟩
  data := some 0x7f0000000000
  datasz := 4096

/-- As `calm`, but the lock is busy at the first two attempts. -/
def busyTwice : World :=
  { calm with flockResp := fun k => if k < 2 then some EWOULDBLOCK else none }

/-- As `calm`, but the lock is busy at every attempt. -/
def alwaysBusy : World :=
  { calm with flockResp := fun _ => some EWOULDBLOCK }

/-- As `alwaysBusy`, and the first lock attempt takes 200ms to answer. -/
def slowFirstAttempt : World :=
  { alwaysBusy with flockDur := fun k => if k = 0 then 200000000 else 0 }

/-- The result and the world of `flock` called with a timeout of 100ms, for an
exclusive lock, in `slowFirstAttempt`. -/
def slowRun : Option GoError × World :=
  (flock 2 db0 0 true (100 * Millisecond) slowFirstAttempt).getD (none, calm)

/-- As `calm`, but the lock is busy at the first attempt and the second attempt
is refused with `EINVAL`. -/
def fatalSecond : World :=
  { calm with flockResp := fun k => if k = 0 then some EWOULDBLOCK else some EINVAL }

/-- The result and the world of `flock` called without timeout, for a shared
lock, in `fatalSecond`. -/
def fatalRun : Option GoError × World :=
  (flock 2 db0 0 false 0 fatalSecond).getD (none, calm)

/-! ## Reading the loop of `flock` -/

/-- The operation `flock` passes to `syscall.Flock`: `flag|syscall.LOCK_NB`. -/
def lockHow (exclusive : Bool) : Nat :=
  (if exclusive then LOCK_EX else LOCK_SH) ||| LOCK_NB

/-- The number of `syscall.Flock` calls in a trace. -/
def flockCalls (tr : List Event) : Nat := (tr.filter Event.isFlock).length

/-- The number of `time.Sleep` calls in a trace. -/
def sleepCalls (tr : List Event) : Nat := (tr.filter Event.isSleep).length

/-- The nil-or-errno answer of the lock call as the `error` that `flock` returns. -/
def errOf (r : Option Errno) : Option GoError := r.map GoError.errno

/-- The test of line 21 holds: `t` is set, `timeout > 0` and `time.Since(t)` is
more than `timeout`. -/
def timedOut (timeout : Duration) (t : Time) (w : World) : Prop :=
  t ≠ 0 ∧ 0 < timeout ∧ timeout < satDuration (w.clock - t)

instance (timeout : Duration) (t : Time) (w : World) : Decidable (timedOut timeout t w) := by
  unfold timedOut; infer_instance

/-- The clock calls of lines 19-23 in a pass that does not return there. -/
def headEvents (timeout : Duration) (t : Time) (w : World) : List Event :=
  if t = 0 then [.Now w.clock]
  else if 0 < timeout then [.Since t (satDuration (w.clock - t))]
  else []

/-- The value of `t` after lines 19-23. -/
def headTime (t : Time) (w : World) : Time :=
  if t = 0 then w.clock else t

/-- The world after lines 19-23 in a pass that does not return there. -/
def headWorld (timeout : Duration) (t : Time) (w : World) : World :=
  { w with trace := w.trace ++ headEvents timeout t w }

/-- The world after a lock attempt that was answered `EWOULDBLOCK` and the sleep
that follows it. -/
def busyStep (pb : DB) (exclusive : Bool) (w : World) : World :=
  Sleep (50 * Millisecond) (sysFlock pb.fd (lockHow exclusive) w).2

/-! # Theorems -/

/-! ## Lemmas on `mmap` and `munmap` -/

theorem mapCall_trace (pb : DB) (sz : Int) (w : World) :
    (mapCall pb sz w).2.trace =
      w.trace ++ [.Mmap pb.fd 0 sz PROT_READ (MAP_SHARED ||| pb.MmapFlags) (mapCall pb sz w).1] := by
  simp [mapCall, sysMmap, World.log]

theorem mapCall_ok_len (pb : DB) (sz : Int) (w : World) (b : Slice)
    (h : (mapCall pb sz w).1 = .inr b) : 0 < sz ∧ (b.len : Int) = sz := by
  simp only [mapCall, sysMmap] at h
  split at h
  · simp at h
  · rename_i hsz
    split at h
    · simp at h
    · simp only [Sum.inr.injEq] at h
      subst h
      simp only
      omega

theorem mmap_map_error (pb : DB) (sz : Int) (w : World) (e : Errno)
    (h : (mapCall pb sz w).1 = .inl e) :
    mmap pb sz w = (.ret (some (.errno e)), pb, (mapCall pb sz w).2) := by
  unfold mapCall at h
  unfold mmap mapCall
  generalize sysMmap pb.fd 0 sz PROT_READ (MAP_SHARED ||| pb.MmapFlags) w = r at h ⊢
  obtain ⟨r1, w1⟩ := r
  simp only at h
  subst h
  rfl

theorem mmap_hint_error (pb : DB) (sz : Int) (w : World) (b : Slice) (e : Errno)
    (h : (mapCall pb sz w).1 = .inr b)
    (he : (sysMadvise b.base b.len MADV_RANDOM (mapCall pb sz w).2).1 = e) (hne : e ≠ 0) :
    mmap pb sz w =
      (.ret (some (.errorf "madvise: %s" e)), pb,
        (sysMadvise b.base b.len MADV_RANDOM (mapCall pb sz w).2).2) := by
  have hlen := mapCall_ok_len pb sz w b h
  have hb : b.len ≠ 0 := by omega
  unfold mapCall at h he ⊢
  unfold mmap
  generalize sysMmap pb.fd 0 sz PROT_READ (MAP_SHARED ||| pb.MmapFlags) w = r at h he ⊢
  obtain ⟨r1, w1⟩ := r
  simp only at h he
  subst h
  simp only [madvise, hb, if_false]
  generalize sysMadvise b.base b.len MADV_RANDOM w1 = q at he ⊢
  obtain ⟨e1, w2⟩ := q
  simp only at he
  subst he
  simp [hne]

theorem mmap_ok (pb : DB) (sz : Int) (w : World) (b : Slice)
    (h : (mapCall pb sz w).1 = .inr b)
    (he : (sysMadvise b.base b.len MADV_RANDOM (mapCall pb sz w).2).1 = 0) :
    mmap pb sz w =
      (.ret none, { pb with dataref := some b, data := some b.base, datasz := sz },
        (sysMadvise b.base b.len MADV_RANDOM (mapCall pb sz w).2).2) := by
  have hlen := mapCall_ok_len pb sz w b h
  have hb : b.len ≠ 0 := by omega
  unfold mapCall at h he ⊢
  unfold mmap
  generalize sysMmap pb.fd 0 sz PROT_READ (MAP_SHARED ||| pb.MmapFlags) w = r at h he ⊢
  obtain ⟨r1, w1⟩ := r
  simp only at h he
  subst h
  simp only [madvise, hb, if_false]
  generalize sysMadvise b.base b.len MADV_RANDOM w1 = q at he ⊢
  obtain ⟨e1, w2⟩ := q
  simp only at he
  subst he
  simp

theorem sysMadvise_trace (a l adv : Nat) (w : World) :
    (sysMadvise a l adv w).2.trace = w.trace ++ [.Madvise a l adv (sysMadvise a l adv w).1] := by
  simp [sysMadvise, World.log]

theorem munmap_none (pb : DB) (w : World) (h : pb.dataref = none) :
    munmap pb w = (none, pb, w) := by
  unfold munmap
  rw [h]

theorem munmap_some (pb : DB) (w : World) (b : Slice) (h : pb.dataref = some b) :
    munmap pb w =
      ((w.munmapErr w.trace b).map GoError.errno,
        { pb with dataref := none, data := none, datasz := 0 },
        w.log (.Munmap b (w.munmapErr w.trace b))) := by
  unfold munmap
  rw [h]
  rfl


/-- The three ways `mmap` ends: the mapping call fails, the hint fails, or both
succeed. It never panics, because a granted region is never empty. -/
theorem mmap_cases (pb : DB) (sz : Int) (w : World) :
    (∃ e, (mapCall pb sz w).1 = .inl e ∧
      mmap pb sz w = (.ret (some (.errno e)), pb, (mapCall pb sz w).2)) ∨
    (∃ b e, (mapCall pb sz w).1 = .inr b ∧ e ≠ 0 ∧
      (sysMadvise b.base b.len MADV_RANDOM (mapCall pb sz w).2).1 = e ∧
      mmap pb sz w = (.ret (some (.errorf "madvise: %s" e)), pb,
        (sysMadvise b.base b.len MADV_RANDOM (mapCall pb sz w).2).2)) ∨
    (∃ b, (mapCall pb sz w).1 = .inr b ∧
      (sysMadvise b.base b.len MADV_RANDOM (mapCall pb sz w).2).1 = 0 ∧
      mmap pb sz w =
        (.ret none, { pb with dataref := some b, data := some b.base, datasz := sz },
          (sysMadvise b.base b.len MADV_RANDOM (mapCall pb sz w).2).2)) := by
  rcases hr : (mapCall pb sz w).1 with e | b
  · exact Or.inl ⟨e, rfl, mmap_map_error pb sz w e hr⟩
  · by_cases he : (sysMadvise b.base b.len MADV_RANDOM (mapCall pb sz w).2).1 = 0
    · exact Or.inr (Or.inr ⟨b, rfl, he, mmap_ok pb sz w b hr he⟩)
    · exact Or.inr (Or.inl ⟨b, _, rfl, he, rfl, mmap_hint_error pb sz w b _ hr rfl he⟩)

/-- What a `mmap` call that returned nil has done. -/
theorem mmap_ret_nil (pb : DB) (sz : Int) (w : World) (h : (mmap pb sz w).1 = .ret none) :
    ∃ b : Slice,
      (mapCall pb sz w).1 = .inr b ∧ (b.len : Int) = sz ∧
      (mmap pb sz w).2.1 = { pb with dataref := some b, data := some b.base, datasz := sz } ∧
      (mmap pb sz w).2.2.trace =
        w.trace ++ [.Mmap pb.fd 0 sz PROT_READ (MAP_SHARED ||| pb.MmapFlags) (.inr b),
                    .Madvise b.base sz.toNat MADV_RANDOM 0] := by
  rcases mmap_cases pb sz w with ⟨e, _, hm⟩ | ⟨b, e, _, _, _, hm⟩ | ⟨b, hb, he, hm⟩
  · rw [hm] at h; simp at h
  · rw [hm] at h; simp at h
  · have hlen := mapCall_ok_len pb sz w b hb
    have hl : sz.toNat = b.len := by omega
    refine ⟨b, hb, hlen.2, by rw [hm], ?_⟩
    rw [hm]
    simp only
    rw [sysMadvise_trace, mapCall_trace, hb, he, hl]
    simp

/-- The invariant of the stored fields: on every `DB` the code produces, a nil
`dataref` comes with a nil `data` and a zero `datasz`. -/
theorem Reachable.coherent {pb : DB} (h : Reachable pb) : pb.dataref = none → pb.isEmpty := by
  induction h with
  | fresh pb he => exact fun _ => he
  | afterMmap pb sz w _ ih =>
    rcases mmap_cases pb sz w with ⟨e, _, hm⟩ | ⟨b, e, _, _, _, hm⟩ | ⟨b, _, _, hm⟩
    · rw [hm]; exact ih
    · rw [hm]; exact ih
    · rw [hm]; intro hc; simp at hc
  | afterMunmap pb w _ ih =>
    cases hd : pb.dataref with
    | none => rw [munmap_none pb w hd]; exact ih
    | some b => rw [munmap_some pb w b hd]; exact fun _ => ⟨rfl, rfl, rfl⟩

/-- After `munmap` a reachable `DB` is in the empty state. -/
theorem munmap_isEmpty (pb : DB) (w : World) (h : Reachable pb) : (munmap pb w).2.1.isEmpty := by
  cases hd : pb.dataref with
  | none => rw [munmap_none pb w hd]; exact h.coherent hd
  | some b => rw [munmap_some pb w b hd]; exact ⟨rfl, rfl, rfl⟩

/-! ## C1: a failed hint -/

/-- C1, as stated, fails: in the world `hintFails` the mapping of 4096 bytes is
granted and the hint is refused; `mmap` returns the `madvise: %s` error after
exactly two platform calls, the `Mmap` and the `madvise`, and no `Munmap` of the
granted region is in the trace. -/
theorem mmap_hint_failure_makes_no_munmap :
    (mapCall db0 4096 hintFails).1 = .inr ⟨0x7f0000000000, 4096⟩ ∧
    (mmap db0 4096 hintFails).1 = .ret (some (.errorf "madvise: %s" EINVAL)) ∧
    (mmap db0 4096 hintFails).2.2.trace =
      [.Mmap 3 0 4096 PROT_READ MAP_SHARED (.inr ⟨0x7f0000000000, 4096⟩),
       .Madvise 0x7f0000000000 4096 MADV_RANDOM EINVAL] ∧
    (mmap db0 4096 hintFails).2.2.trace.filter Event.isMunmap = [] := by
  decide

/-- C1, amended: when the mapping call is granted and the hint fails with errno
`e`, `mmap` returns the error `madvise: %s` of `e`, the platform calls it made
are exactly the `Mmap` and the `madvise` (no `Munmap`), and the `DB` is as it
was before the call; so a following `munmap` on a `DB` that held no region
before is a no-op. -/
theorem mmap_hint_failure_returns_error_keeps_db (pb : DB) (sz : Int) (w : World)
    (b : Slice) (e : Errno)
    (hmap : (mapCall pb sz w).1 = .inr b)
    (hadv : (sysMadvise b.base b.len MADV_RANDOM (mapCall pb sz w).2).1 = e)
    (hne : e ≠ 0) :
    (mmap pb sz w).1 = .ret (some (.errorf "madvise: %s" e)) ∧
    (mmap pb sz w).2.1 = pb ∧
    (mmap pb sz w).2.2.trace =
      w.trace ++ [.Mmap pb.fd 0 sz PROT_READ (MAP_SHARED ||| pb.MmapFlags) (.inr b),
                  .Madvise b.base b.len MADV_RANDOM e] ∧
    (pb.dataref = none →
      munmap (mmap pb sz w).2.1 (mmap pb sz w).2.2 = (none, pb, (mmap pb sz w).2.2)) := by
  rw [mmap_hint_error pb sz w b e hmap hadv hne]
  refine ⟨rfl, rfl, ?_, fun h => munmap_none _ _ h⟩
  rw [sysMadvise_trace, mapCall_trace, hmap, hadv]
  simp

/-- The amended C1 at a mapping of 4096 bytes in the world `hintFails`. -/
theorem mmap_hint_failure_returns_error_keeps_db_witness :
    (mmap db0 4096 hintFails).1 = .ret (some (.errorf "madvise: %s" EINVAL)) ∧
    (mmap db0 4096 hintFails).2.1 = db0 ∧
    (mmap db0 4096 hintFails).2.2.trace =
      hintFails.trace ++ [.Mmap db0.fd 0 4096 PROT_READ (MAP_SHARED ||| db0.MmapFlags)
                    (.inr ⟨0x7f0000000000, 4096⟩),
                  .Madvise 0x7f0000000000 4096 MADV_RANDOM EINVAL] ∧
    (db0.dataref = none →
      munmap (mmap db0 4096 hintFails).2.1 (mmap db0 4096 hintFails).2.2 =
        (none, db0, (mmap db0 4096 hintFails).2.2)) :=
  mmap_hint_failure_returns_error_keeps_db db0 4096 hintFails ⟨0x7f0000000000, 4096⟩ EINVAL
    (by decide) (by decide) (by decide)


/-! ## C2: no size limit in `mmap` -/

/-- C2, as stated, fails: asked for one byte more than `maxMapSize`, `mmap` goes
to the platform. In the world `calm` it invokes both the mapping call (with that
length) and the hint, returns nil and stores the length; in the world
`noMemory` it invokes the mapping call and returns the kernel's `ENOMEM`. -/
theorem mmap_above_maxMapSize_calls_platform :
    maxMapSize < maxMapSize + 1 ∧
    (mmap db0 (maxMapSize + 1) calm).1 = .ret none ∧
    (mmap db0 (maxMapSize + 1) calm).2.2.trace =
      [.Mmap 3 0 0x1000000000000 PROT_READ MAP_SHARED (.inr ⟨0x7f0000000000, 0x1000000000000⟩),
       .Madvise 0x7f0000000000 0x1000000000000 MADV_RANDOM 0] ∧
    (mmap db0 (maxMapSize + 1) calm).2.1.datasz = maxMapSize + 1 ∧
    (mmap db0 (maxMapSize + 1) noMemory).1 = .ret (some (.errno ENOMEM)) ∧
    (mmap db0 (maxMapSize + 1) noMemory).2.2.trace =
      [.Mmap 3 0 0x1000000000000 PROT_READ MAP_SHARED (.inl ENOMEM)] := by
  decide

/-- C2, amended: `mmap` does not compare `sz` with `maxMapSize`. For every `sz`,
`sz > maxMapSize` included, its first action is the platform mapping call with
length `sz`, and what it does is fixed by the platform's answers alone: when
the mapping call fails `mmap` returns the platform's errno, makes no other call
and leaves the `DB` as it was; when it is granted and the hint fails `mmap`
returns the `madvise: %s` error after those two calls, the `DB` as it was; when
both succeed `mmap` returns nil and stores the region with `datasz = sz`. Above
`maxMapSize` the answer of the mapping call is the kernel's. -/
theorem mmap_has_no_size_check (pb : DB) (sz : Int) (w : World) :
    (∃ rest, (mmap pb sz w).2.2.trace =
      w.trace ++ Event.Mmap pb.fd 0 sz PROT_READ (MAP_SHARED ||| pb.MmapFlags)
        (mapCall pb sz w).1 :: rest) ∧
    (maxMapSize < sz → (mapCall pb sz w).1 =
      (match w.mmapAddr w.trace pb.fd 0 sz PROT_READ (MAP_SHARED ||| pb.MmapFlags) with
       | .inl e => .inl e
       | .inr a => .inr ⟨a, sz.toNat⟩)) ∧
    (∀ e, (mapCall pb sz w).1 = .inl e →
      mmap pb sz w = (.ret (some (.errno e)), pb,
        w.log (.Mmap pb.fd 0 sz PROT_READ (MAP_SHARED ||| pb.MmapFlags) (.inl e)))) ∧
    (∀ b e, (mapCall pb sz w).1 = .inr b →
      (w.log (.Mmap pb.fd 0 sz PROT_READ (MAP_SHARED ||| pb.MmapFlags) (.inr b))).madviseErr
        (w.trace ++ [.Mmap pb.fd 0 sz PROT_READ (MAP_SHARED ||| pb.MmapFlags) (.inr b)])
        b.base b.len MADV_RANDOM = e →
      mmap pb sz w =
        (if e ≠ 0 then .ret (some (.errorf "madvise: %s" e)) else .ret none,
         if e ≠ 0 then pb else { pb with dataref := some b, data := some b.base, datasz := sz },
         (w.log (.Mmap pb.fd 0 sz PROT_READ (MAP_SHARED ||| pb.MmapFlags) (.inr b))).log
           (.Madvise b.base b.len MADV_RANDOM e))) := by
  have hw : (mapCall pb sz w).2 =
      w.log (.Mmap pb.fd 0 sz PROT_READ (MAP_SHARED ||| pb.MmapFlags) (mapCall pb sz w).1) := rfl
  refine ⟨?_, ?_, ?_, ?_⟩
  · rcases mmap_cases pb sz w with ⟨e, _, hm⟩ | ⟨b, e, _, _, _, hm⟩ | ⟨b, _, _, hm⟩
    · exact ⟨[], by rw [hm]; exact mapCall_trace pb sz w⟩
    · refine ⟨[.Madvise b.base b.len MADV_RANDOM
        (sysMadvise b.base b.len MADV_RANDOM (mapCall pb sz w).2).1], ?_⟩
      rw [hm]
      simp only
      rw [sysMadvise_trace, mapCall_trace]
      simp
    · refine ⟨[.Madvise b.base b.len MADV_RANDOM
        (sysMadvise b.base b.len MADV_RANDOM (mapCall pb sz w).2).1], ?_⟩
      rw [hm]
      simp only
      rw [sysMadvise_trace, mapCall_trace]
      simp
  · intro h
    have hpos : ¬ sz ≤ 0 := by
      have : (0 : Int) ≤ maxMapSize := by decide
      omega
    simp [mapCall, sysMmap, hpos]
  · intro e he
    rw [mmap_map_error pb sz w e he, hw, he]
  · intro b e hb he
    have hadv : (sysMadvise b.base b.len MADV_RANDOM (mapCall pb sz w).2).1 = e := by
      rw [hw, hb]; exact he
    have hw2 : (sysMadvise b.base b.len MADV_RANDOM (mapCall pb sz w).2).2 =
        (w.log (.Mmap pb.fd 0 sz PROT_READ (MAP_SHARED ||| pb.MmapFlags) (.inr b))).log
          (.Madvise b.base b.len MADV_RANDOM e) := by
      rw [← hadv, hw, hb]; rfl
    by_cases hne : e = 0
    · subst hne
      rw [mmap_ok pb sz w b hb hadv, hw2]
      simp
    · rw [mmap_hint_error pb sz w b e hb hadv hne, hw2]
      simp [hne]

/-- The amended C2 at a request of `maxMapSize + 1` bytes: in the world `calm` the
mapping call is made with that length and the length is stored. -/
theorem mmap_has_no_size_check_witness :
    maxMapSize < maxMapSize + 1 ∧
    mmap db0 (maxMapSize + 1) calm =
      (.ret none,
       { db0 with dataref := some ⟨0x7f0000000000, 0x1000000000000⟩,
                  data := some 0x7f0000000000, datasz := maxMapSize + 1 },
       (calm.log (.Mmap 3 0 (maxMapSize + 1) PROT_READ MAP_SHARED
          (.inr ⟨0x7f0000000000, 0x1000000000000⟩))).log
         (.Madvise 0x7f0000000000 0x1000000000000 MADV_RANDOM 0)) :=
  ⟨by decide,
    (mmap_has_no_size_check db0 (maxMapSize + 1) calm).2.2.2
      ⟨0x7f0000000000, 0x1000000000000⟩ 0 (by decide) (by decide)⟩

/-! ## C8: the hint is given the mapped region -/

/-- C8: whenever `mmap pb sz` returns nil, the mapping call returned a region
`b` of exactly `sz` bytes, the platform calls made are that mapping call
followed by one single `madvise` call, on the base of `b`, with length `sz` and
advice `MADV_RANDOM`, and afterwards `dataref` is `b`, `data` is the base of `b`
and `datasz` is `sz`. -/
theorem mmap_success_hints_and_stores_region (pb : DB) (sz : Int) (w : World)
    (h : (mmap pb sz w).1 = .ret none) :
    ∃ b : Slice,
      (mapCall pb sz w).1 = .inr b ∧ (b.len : Int) = sz ∧
      (mmap pb sz w).2.2.trace =
        w.trace ++ [.Mmap pb.fd 0 sz PROT_READ (MAP_SHARED ||| pb.MmapFlags) (.inr b),
                    .Madvise b.base sz.toNat MADV_RANDOM 0] ∧
      ((mmap pb sz w).2.2.trace.drop w.trace.length).filter Event.isMadvise =
        [.Madvise b.base sz.toNat MADV_RANDOM 0] ∧
      (mmap pb sz w).2.1.dataref = some b ∧
      (mmap pb sz w).2.1.data = some b.base ∧
      (mmap pb sz w).2.1.datasz = sz ∧
      (mmap pb sz w).2.1.fd = pb.fd ∧ (mmap pb sz w).2.1.MmapFlags = pb.MmapFlags := by
  obtain ⟨b, hb, hlen, hdb, htr⟩ := mmap_ret_nil pb sz w h
  refine ⟨b, hb, hlen, htr, ?_, ?_, ?_, ?_, ?_, ?_⟩
  · rw [htr]
    simp [Event.isMadvise]
  all_goals rw [hdb]

/-- C8 at `mmap` of 4096 bytes in the world `calm`. -/
theorem mmap_success_hints_and_stores_region_witness :
    ∃ b : Slice,
      (mapCall db0 4096 calm).1 = .inr b ∧ (b.len : Int) = 4096 ∧
      (mmap db0 4096 calm).2.2.trace =
        calm.trace ++ [.Mmap db0.fd 0 4096 PROT_READ (MAP_SHARED ||| db0.MmapFlags) (.inr b),
                    .Madvise b.base (4096 : Int).toNat MADV_RANDOM 0] ∧
      ((mmap db0 4096 calm).2.2.trace.drop calm.trace.length).filter Event.isMadvise =
        [.Madvise b.base (4096 : Int).toNat MADV_RANDOM 0] ∧
      (mmap db0 4096 calm).2.1.dataref = some b ∧
      (mmap db0 4096 calm).2.1.data = some b.base ∧
      (mmap db0 4096 calm).2.1.datasz = 4096 ∧
      (mmap db0 4096 calm).2.1.fd = db0.fd ∧ (mmap db0 4096 calm).2.1.MmapFlags = db0.MmapFlags :=
  mmap_success_hints_and_stores_region db0 4096 calm (by decide)


/-! ## C6: `munmap` twice -/

/-- C6, as stated, fails: in the world `unmapFails`, `mmap` of 4096 bytes on
`db0` succeeds and stores the region, and the first of two consecutive `munmap`
calls on that `DB` does not succeed: the platform unmap call is refused and
`munmap` returns its `EINVAL`. -/
theorem munmap_first_call_fails_with_platform :
    (mmap db0 4096 unmapFails).1 = .ret none ∧
    (mmap db0 4096 unmapFails).2.1 = dbMapped ∧
    (munmap dbMapped (mmap db0 4096 unmapFails).2.2).1 = some (.errno EINVAL) ∧
    (munmap dbMapped (mmap db0 4096 unmapFails).2.2).2.2.trace =
      [.Mmap 3 0 4096 PROT_READ MAP_SHARED (.inr ⟨0x7f0000000000, 4096⟩),
       .Madvise 0x7f0000000000 4096 MADV_RANDOM 0,
       .Munmap ⟨0x7f0000000000, 4096⟩ (some EINVAL)] := by
  decide

/-- C6, amended: for every `DB` state the code produces, of two consecutive
`munmap` calls the first returns exactly the answer of its platform unmap call
(nil, or that errno; nil without any platform call when no region is stored),
so it succeeds exactly when no region is stored or that call succeeds; the
second call succeeds, makes no platform call and leaves the state identical to
the state after the first, which is the empty state. With `dataref = nil`,
`munmap` returns success without a platform call and without changing
anything. -/
theorem munmap_second_call_is_noop (pb : DB) (w : World) (h : Reachable pb) :
    (∀ b, pb.dataref = some b →
      munmap pb w =
        ((w.munmapErr w.trace b).map GoError.errno,
          { pb with dataref := none, data := none, datasz := 0 },
          w.log (.Munmap b (w.munmapErr w.trace b)))) ∧
    (pb.dataref = none → munmap pb w = (none, pb, w)) ∧
    munmap (munmap pb w).2.1 (munmap pb w).2.2 =
      (none, (munmap pb w).2.1, (munmap pb w).2.2) ∧
    (munmap pb w).2.1.isEmpty ∧
    ((munmap pb w).1 = none ↔
      (pb.dataref = none ∨ ∃ b, pb.dataref = some b ∧ w.munmapErr w.trace b = none)) := by
  have hnil : (munmap pb w).2.1.dataref = none := (munmap_isEmpty pb w h).1
  refine ⟨fun b hb => munmap_some pb w b hb, fun hd => munmap_none pb w hd,
    munmap_none _ _ hnil, munmap_isEmpty pb w h, ?_⟩
  cases hd : pb.dataref with
  | none => rw [munmap_none pb w hd]; simp
  | some b =>
    rw [munmap_some pb w b hd]
    cases hr : w.munmapErr w.trace b <;> simp [hr]

/-- The amended C6 at the `DB` that `mmap` of 4096 bytes leaves in the world
`calm`. -/
theorem munmap_second_call_is_noop_witness :
    Reachable calmMapped.2.1 ∧
    (munmap calmMapped.2.1 calmMapped.2.2).1 = none ∧
    (∀ b, calmMapped.2.1.dataref = some b →
      munmap calmMapped.2.1 calmMapped.2.2 =
        ((calmMapped.2.2.munmapErr calmMapped.2.2.trace b).map GoError.errno,
          { calmMapped.2.1 with dataref := none, data := none, datasz := 0 },
          calmMapped.2.2.log (.Munmap b (calmMapped.2.2.munmapErr calmMapped.2.2.trace b)))) ∧
    (calmMapped.2.1.dataref = none → munmap calmMapped.2.1 calmMapped.2.2 = (none, calmMapped.2.1, calmMapped.2.2)) ∧
    munmap (munmap calmMapped.2.1 calmMapped.2.2).2.1 (munmap calmMapped.2.1 calmMapped.2.2).2.2 =
      (none, (munmap calmMapped.2.1 calmMapped.2.2).2.1, (munmap calmMapped.2.1 calmMapped.2.2).2.2) ∧
    (munmap calmMapped.2.1 calmMapped.2.2).2.1.isEmpty ∧
    ((munmap calmMapped.2.1 calmMapped.2.2).1 = none ↔
      (calmMapped.2.1.dataref = none ∨ ∃ b, calmMapped.2.1.dataref = some b ∧ calmMapped.2.2.munmapErr calmMapped.2.2.trace b = none)) :=
  ⟨Reachable.afterMmap db0 4096 calm (Reachable.fresh db0 (by decide)), by decide,
    munmap_second_call_is_noop calmMapped.2.1 calmMapped.2.2
      (Reachable.afterMmap db0 4096 calm (Reachable.fresh db0 (by decide)))⟩

/-! ## C7: `mmap` followed by `munmap` -/

/-- C7: on a `DB` in the unmapped state, when `mmap pb sz` returns nil and the
platform unmap call on the stored region succeeds, the following `munmap`
returns nil and gives back a `DB` equal to `pb` in every field; the platform
calls of the two are the mapping call, the hint and one `Munmap`, made on the
very region the mapping call returned. -/
theorem mmap_then_munmap_restores_db (pb : DB) (sz : Int) (w : World)
    (hempty : pb.isEmpty)
    (hmap : (mmap pb sz w).1 = .ret none)
    (hunmap : ∀ b, (mmap pb sz w).2.1.dataref = some b →
      (mmap pb sz w).2.2.munmapErr (mmap pb sz w).2.2.trace b = none) :
    ∃ b : Slice,
      (mapCall pb sz w).1 = .inr b ∧
      (munmap (mmap pb sz w).2.1 (mmap pb sz w).2.2).1 = none ∧
      (munmap (mmap pb sz w).2.1 (mmap pb sz w).2.2).2.1 = pb ∧
      (munmap (mmap pb sz w).2.1 (mmap pb sz w).2.2).2.1.isEmpty ∧
      (munmap (mmap pb sz w).2.1 (mmap pb sz w).2.2).2.2.trace =
        w.trace ++ [.Mmap pb.fd 0 sz PROT_READ (MAP_SHARED ||| pb.MmapFlags) (.inr b),
                    .Madvise b.base sz.toNat MADV_RANDOM 0,
                    .Munmap b none] := by
  obtain ⟨b, hb, _, hdb, htr⟩ := mmap_ret_nil pb sz w hmap
  have hdr : (mmap pb sz w).2.1.dataref = some b := by rw [hdb]
  have hfd : (mmap pb sz w).2.1.fd = pb.fd := by rw [hdb]
  have hfl : (mmap pb sz w).2.1.MmapFlags = pb.MmapFlags := by rw [hdb]
  have hu := hunmap b hdr
  have hm := munmap_some _ (mmap pb sz w).2.2 b hdr
  rw [hu] at hm
  obtain ⟨h1, h2, h3⟩ := hempty
  have hpb : ({ (mmap pb sz w).2.1 with dataref := none, data := none, datasz := 0 } : DB) = pb := by
    rcases pb with ⟨fd, fl, dr, da, ds⟩
    simp only at h1 h2 h3 hfd hfl
    subst h1 h2 h3
    simp [hfd, hfl]
  refine ⟨b, hb, ?_, ?_, ?_, ?_⟩
  · rw [hm]; rfl
  · rw [hm]; exact hpb
  · rw [hm]; exact ⟨rfl, rfl, rfl⟩
  · rw [hm]
    simp only [World.log]
    rw [htr]
    simp

/-- C7 at `mmap` of 8192 bytes followed by `munmap` in the world `calm`. -/
theorem mmap_then_munmap_restores_db_witness :
    ∃ b : Slice,
      (mapCall db0 8192 calm).1 = .inr b ∧
      (munmap (mmap db0 8192 calm).2.1 (mmap db0 8192 calm).2.2).1 = none ∧
      (munmap (mmap db0 8192 calm).2.1 (mmap db0 8192 calm).2.2).2.1 = db0 ∧
      (munmap (mmap db0 8192 calm).2.1 (mmap db0 8192 calm).2.2).2.1.isEmpty ∧
      (munmap (mmap db0 8192 calm).2.1 (mmap db0 8192 calm).2.2).2.2.trace =
        calm.trace ++ [.Mmap db0.fd 0 8192 PROT_READ (MAP_SHARED ||| db0.MmapFlags) (.inr b),
                    .Madvise b.base (8192 : Int).toNat MADV_RANDOM 0,
                    .Munmap b none] :=
  mmap_then_munmap_restores_db db0 8192 calm (by decide) (by decide) (fun _ _ => rfl)

/-! ## C10: what a failure leaves behind -/

/-- C10: on every `DB` state the code produces. When a region `b` is stored,
`munmap` makes the platform unmap call on `b`, returns exactly its answer (nil
or the errno) and clears `dataref`, `data` and `datasz`, also when the call
fails. Hence after any `munmap` call, successful or not, the `DB` is in the
empty state, and a following `munmap` makes no platform call. When `mmap` does
not return nil (mapping error or hint error) it gives back the `DB` exactly as
it was. -/
theorem munmap_clears_even_on_failure (pb : DB) (w : World) (sz : Int) (h : Reachable pb) :
    (∀ b, pb.dataref = some b →
      munmap pb w =
        ((w.munmapErr w.trace b).map GoError.errno,
          { pb with dataref := none, data := none, datasz := 0 },
          w.log (.Munmap b (w.munmapErr w.trace b)))) ∧
    (∀ b e, pb.dataref = some b → w.munmapErr w.trace b = some e →
      (munmap pb w).1 = some (.errno e) ∧ (munmap pb w).2.1.isEmpty) ∧
    (pb.dataref = none → munmap pb w = (none, pb, w)) ∧
    (munmap pb w).2.1.isEmpty ∧
    munmap (munmap pb w).2.1 (munmap pb w).2.2 =
      (none, (munmap pb w).2.1, (munmap pb w).2.2) ∧
    ((mmap pb sz w).1 ≠ .ret none → (mmap pb sz w).2.1 = pb) := by
  have hnil : (munmap pb w).2.1.dataref = none := (munmap_isEmpty pb w h).1
  refine ⟨fun b hb => munmap_some pb w b hb, ?_, fun hd => munmap_none pb w hd,
    munmap_isEmpty pb w h, munmap_none _ _ hnil, ?_⟩
  · intro b e hb he
    rw [munmap_some pb w b hb, he]
    exact ⟨rfl, rfl, rfl, rfl⟩
  · intro hf
    rcases mmap_cases pb sz w with ⟨e, _, hm⟩ | ⟨b, e, _, _, _, hm⟩ | ⟨b, _, _, hm⟩
    · rw [hm]
    · rw [hm]
    · rw [hm] at hf
      exact absurd rfl hf

/-- C10 at the `DB` that `mmap` of 4096 bytes leaves in the world `calm`, with the
unmap refused (world `unmapFails`) and with the hint of a second `mmap` refused
(world `hintFails`). -/
theorem munmap_clears_even_on_failure_witness :
    Reachable calmMapped.2.1 ∧
    (munmap calmMapped.2.1 unmapFails).1 = some (.errno EINVAL) ∧
    (mmap calmMapped.2.1 8192 hintFails).2.1 = calmMapped.2.1 ∧
    (
    (∀ b, calmMapped.2.1.dataref = some b →
      munmap calmMapped.2.1 unmapFails =
        ((unmapFails.munmapErr unmapFails.trace b).map GoError.errno,
          { calmMapped.2.1 with dataref := none, data := none, datasz := 0 },
          unmapFails.log (.Munmap b (unmapFails.munmapErr unmapFails.trace b)))) ∧
    (∀ b e, calmMapped.2.1.dataref = some b → unmapFails.munmapErr unmapFails.trace b = some e →
      (munmap calmMapped.2.1 unmapFails).1 = some (.errno e) ∧ (munmap calmMapped.2.1 unmapFails).2.1.isEmpty) ∧
    (calmMapped.2.1.dataref = none → munmap calmMapped.2.1 unmapFails = (none, calmMapped.2.1, unmapFails)) ∧
    (munmap calmMapped.2.1 unmapFails).2.1.isEmpty ∧
    munmap (munmap calmMapped.2.1 unmapFails).2.1 (munmap calmMapped.2.1 unmapFails).2.2 =
      (none, (munmap calmMapped.2.1 unmapFails).2.1, (munmap calmMapped.2.1 unmapFails).2.2) ∧
    ((mmap calmMapped.2.1 8192 unmapFails).1 ≠ .ret none → (mmap calmMapped.2.1 8192 unmapFails).2.1 = calmMapped.2.1)) :=
  ⟨Reachable.afterMmap db0 4096 calm (Reachable.fresh db0 (by decide)), by decide, by decide,
    munmap_clears_even_on_failure calmMapped.2.1 unmapFails 8192
      (Reachable.afterMmap db0 4096 calm (Reachable.fresh db0 (by decide)))⟩

/-! ## Lemmas on the loop of `flock` -/

theorem satDuration_le_max (d : Int) : satDuration d ≤ maxDuration := by
  unfold satDuration
  split
  · decide
  · split
    · exact le_refl _
    · exact not_lt.mp ‹_›

/-- A reading above a positive `timeout` is a true elapsed time above it. -/
theorem lt_of_lt_satDuration (timeout : Duration) (d : Int) (h0 : 0 < timeout)
    (h : timeout < satDuration d) : timeout < d := by
  unfold satDuration at h
  have hmin : minDuration < 0 := by decide
  split at h
  · exact absurd (lt_trans h0 h) (not_lt.mpr (le_of_lt hmin))
  · split at h
    · exact lt_trans h ‹_›
    · exact h

/-- Below `maxDuration`, an elapsed time above `timeout` is read as such. -/
theorem lt_satDuration_of_lt (timeout : Duration) (d : Int) (h1 : timeout < maxDuration)
    (h : timeout < d) (h0 : 0 < timeout) : timeout < satDuration d := by
  unfold satDuration
  have hmin : minDuration < 0 := by decide
  split
  · rename_i hd
    exact absurd (lt_trans (lt_trans hd hmin) h0) (not_lt.mpr (le_of_lt h))
  · split
    · exact h1
    · exact h

theorem flockCalls_append (a b : List Event) :
    flockCalls (a ++ b) = flockCalls a + flockCalls b := by
  simp [flockCalls]

theorem sleepCalls_append (a b : List Event) :
    sleepCalls (a ++ b) = sleepCalls a + sleepCalls b := by
  simp [sleepCalls]

theorem flockCalls_headEvents (timeout : Duration) (t : Time) (w : World) :
    flockCalls (headEvents timeout t w) = 0 := by
  unfold headEvents
  split
  · rfl
  · split <;> rfl

theorem sleepCalls_headEvents (timeout : Duration) (t : Time) (w : World) :
    sleepCalls (headEvents timeout t w) = 0 := by
  unfold headEvents
  split
  · rfl
  · split <;> rfl

theorem busyStep_eq (pb : DB) (exclusive : Bool) (w : World) :
    busyStep pb exclusive w =
      { w with
        clock := w.clock + (w.flockDur 0 : Int) + 50 * Millisecond + (w.oversleep 0 : Int)
        flockResp := fun k => w.flockResp (k + 1)
        flockDur := fun k => w.flockDur (k + 1)
        oversleep := fun k => w.oversleep (k + 1)
        trace := w.trace ++ [.Flock pb.fd (lockHow exclusive) (w.flockResp 0),
                             .Sleep (50 * Millisecond)] } := by
  have h : ¬ (50 * Millisecond ≤ 0) := by decide
  simp [busyStep, Sleep, sysFlock, h]

theorem flockTry_eq (pb : DB) (exclusive : Bool) (t : Time) (w : World) :
    flockTry pb exclusive t w =
      if w.flockResp 0 = some EWOULDBLOCK then .inr (t, busyStep pb exclusive w)
      else .inl (errOf (w.flockResp 0), (sysFlock pb.fd (lockHow exclusive) w).2) := by
  unfold flockTry busyStep lockHow errOf
  simp only [sysFlock]
  cases h : w.flockResp 0 with
  | none => simp
  | some e =>
    by_cases he : e = EWOULDBLOCK
    · simp [he]
    · simp [he]

theorem flockIter_eq (pb : DB) (exclusive : Bool) (timeout : Duration) (t : Time) (w : World) :
    flockIter pb exclusive timeout t w =
      if timedOut timeout t w then .inl (some .ErrTimeout, (Since t w).2)
      else flockTry pb exclusive (headTime t w) (headWorld timeout t w) := by
  unfold flockIter timedOut headTime headWorld headEvents IsZero
  by_cases ht : t = 0
  · simp [ht, Now, World.log]
  · by_cases hto : 0 < timeout
    · by_cases hd : timeout < satDuration (w.clock - t)
      · simp [ht, hto, hd, Since]
      · simp [ht, hto, hd, Since, World.log]
    · simp [ht, hto]

theorem flockLoop_timedOut (fuel : Nat) (pb : DB) (exclusive : Bool) (timeout : Duration)
    (t : Time) (w : World) (h : timedOut timeout t w) :
    flockLoop (fuel + 1) pb exclusive timeout t w = some (some .ErrTimeout, (Since t w).2) := by
  simp [flockLoop, flockIter_eq, h]

theorem flockLoop_answer (fuel : Nat) (pb : DB) (exclusive : Bool) (timeout : Duration)
    (t : Time) (w : World) (h : ¬ timedOut timeout t w)
    (hr : w.flockResp 0 ≠ some EWOULDBLOCK) :
    flockLoop (fuel + 1) pb exclusive timeout t w =
      some (errOf (w.flockResp 0),
        (sysFlock pb.fd (lockHow exclusive) (headWorld timeout t w)).2) := by
  have hr2 : (headWorld timeout t w).flockResp 0 ≠ some EWOULDBLOCK := hr
  simp only [flockLoop, flockIter_eq, h, if_false, flockTry_eq, hr2]
  rfl

theorem flockLoop_busy (fuel : Nat) (pb : DB) (exclusive : Bool) (timeout : Duration)
    (t : Time) (w : World) (h : ¬ timedOut timeout t w)
    (hr : w.flockResp 0 = some EWOULDBLOCK) :
    flockLoop (fuel + 1) pb exclusive timeout t w =
      flockLoop fuel pb exclusive timeout (headTime t w)
        (busyStep pb exclusive (headWorld timeout t w)) := by
  have hr2 : (headWorld timeout t w).flockResp 0 = some EWOULDBLOCK := hr
  simp only [flockLoop, flockIter_eq, h, if_false, flockTry_eq, hr2, if_true]


theorem next_flockResp (pb : DB) (exclusive : Bool) (timeout : Duration) (t : Time) (w : World)
    (i : Nat) :
    (busyStep pb exclusive (headWorld timeout t w)).flockResp i = w.flockResp (i + 1) := by
  rw [busyStep_eq]; rfl

theorem next_flockDur (pb : DB) (exclusive : Bool) (timeout : Duration) (t : Time) (w : World)
    (i : Nat) :
    (busyStep pb exclusive (headWorld timeout t w)).flockDur i = w.flockDur (i + 1) := by
  rw [busyStep_eq]; rfl

theorem next_oversleep (pb : DB) (exclusive : Bool) (timeout : Duration) (t : Time) (w : World)
    (i : Nat) :
    (busyStep pb exclusive (headWorld timeout t w)).oversleep i = w.oversleep (i + 1) := by
  rw [busyStep_eq]; rfl

theorem next_clock (pb : DB) (exclusive : Bool) (timeout : Duration) (t : Time) (w : World) :
    (busyStep pb exclusive (headWorld timeout t w)).clock =
      w.clock + (w.flockDur 0 : Int) + 50 * Millisecond + (w.oversleep 0 : Int) := by
  rw [busyStep_eq]; rfl

theorem next_trace (pb : DB) (exclusive : Bool) (timeout : Duration) (t : Time) (w : World) :
    (busyStep pb exclusive (headWorld timeout t w)).trace =
      w.trace ++ (headEvents timeout t w ++
        [.Flock pb.fd (lockHow exclusive) (w.flockResp 0), .Sleep (50 * Millisecond)]) := by
  rw [busyStep_eq]
  simp [headWorld]

theorem next_flockCalls (pb : DB) (exclusive : Bool) (timeout : Duration) (t : Time) (w : World) :
    flockCalls (busyStep pb exclusive (headWorld timeout t w)).trace = flockCalls w.trace + 1 := by
  rw [next_trace, flockCalls_append, flockCalls_append, flockCalls_headEvents]
  rfl

theorem next_sleepCalls (pb : DB) (exclusive : Bool) (timeout : Duration) (t : Time) (w : World) :
    sleepCalls (busyStep pb exclusive (headWorld timeout t w)).trace = sleepCalls w.trace + 1 := by
  rw [next_trace, sleepCalls_append, sleepCalls_append, sleepCalls_headEvents]
  rfl

theorem answer_trace (pb : DB) (exclusive : Bool) (timeout : Duration) (t : Time) (w : World) :
    (sysFlock pb.fd (lockHow exclusive) (headWorld timeout t w)).2.trace =
      (w.trace ++ headEvents timeout t w) ++
        [.Flock pb.fd (lockHow exclusive) (w.flockResp 0)] := by
  simp [sysFlock, headWorld]

theorem answer_flockCalls (pb : DB) (exclusive : Bool) (timeout : Duration) (t : Time)
    (w : World) :
    flockCalls (sysFlock pb.fd (lockHow exclusive) (headWorld timeout t w)).2.trace =
      flockCalls w.trace + 1 := by
  rw [answer_trace, flockCalls_append, flockCalls_append, flockCalls_headEvents]
  rfl

theorem answer_sleepCalls (pb : DB) (exclusive : Bool) (timeout : Duration) (t : Time)
    (w : World) :
    sleepCalls (sysFlock pb.fd (lockHow exclusive) (headWorld timeout t w)).2.trace =
      sleepCalls w.trace := by
  rw [answer_trace, sleepCalls_append, sleepCalls_append, sleepCalls_headEvents]
  rfl

theorem since_trace (t : Time) (w : World) :
    (Since t w).2.trace = w.trace ++ [.Since t (satDuration (w.clock - t))] := rfl

/-- Every finished run of the loop: `k` busy answers, each followed by a sleep,
and then either an answer other than `EWOULDBLOCK`, which is returned, or the
timeout test of line 21. -/
theorem flockLoop_run (pb : DB) (exclusive : Bool) (timeout : Duration) :
    ∀ (fuel : Nat) (t : Time) (w : World) (r : Option GoError) (w' : World),
      flockLoop fuel pb exclusive timeout t w = some (r, w') →
      ∃ k, (∀ i, i < k → w.flockResp i = some EWOULDBLOCK) ∧
        sleepCalls w'.trace = sleepCalls w.trace + k ∧
        ((w.flockResp k ≠ some EWOULDBLOCK ∧ r = errOf (w.flockResp k) ∧
            flockCalls w'.trace = flockCalls w.trace + (k + 1) ∧
            ∃ pre, w'.trace = pre ++ [.Flock pb.fd (lockHow exclusive) (w.flockResp k)]) ∨
         (r = some .ErrTimeout ∧ 0 < timeout ∧
            flockCalls w'.trace = flockCalls w.trace + k ∧ (t = 0 → 1 ≤ k) ∧
            ∃ pre t1, w'.trace = pre ++ [.Since t1 (satDuration (w'.clock - t1))] ∧
              timeout < satDuration (w'.clock - t1) ∧ timeout < w'.clock - t1)) := by
  intro fuel
  induction fuel with
  | zero => intro t w r w' h; simp [flockLoop] at h
  | succ f ih =>
    intro t w r w' h
    by_cases hto : timedOut timeout t w
    · rw [flockLoop_timedOut f pb exclusive timeout t w hto] at h
      simp only [Option.some.injEq, Prod.mk.injEq] at h
      obtain ⟨hr, hw⟩ := h
      subst hr hw
      refine ⟨0, fun i hi => absurd hi (Nat.not_lt_zero i), by rw [since_trace, sleepCalls_append]; rfl,
        Or.inr ⟨rfl, hto.2.1, by rw [since_trace, flockCalls_append]; rfl,
          fun h0 => absurd h0 hto.1, w.trace, t, rfl, hto.2.2,
          lt_of_lt_satDuration timeout _ hto.2.1 hto.2.2⟩⟩
    · by_cases hb : w.flockResp 0 = some EWOULDBLOCK
      · rw [flockLoop_busy f pb exclusive timeout t w hto hb] at h
        obtain ⟨k, hk, hs, hcase⟩ := ih _ _ r w' h
        refine ⟨k + 1, ?_, ?_, ?_⟩
        · intro i hi
          cases i with
          | zero => exact hb
          | succ j =>
            have := hk j (by omega)
            rwa [next_flockResp] at this
        · rw [hs, next_sleepCalls]; omega
        · rcases hcase with ⟨h1, h2, h3, h4⟩ | ⟨h1, h2, h3, _, h5⟩
          · rw [next_flockResp] at h1 h2 h4
            exact Or.inl ⟨h1, h2, by rw [h3, next_flockCalls]; omega, h4⟩
          · exact Or.inr ⟨h1, h2, by rw [h3, next_flockCalls]; omega, fun _ => by omega, h5⟩
      · rw [flockLoop_answer f pb exclusive timeout t w hto hb] at h
        simp only [Option.some.injEq, Prod.mk.injEq] at h
        obtain ⟨hr, hw⟩ := h
        subst hr hw
        exact ⟨0, fun i hi => absurd hi (Nat.not_lt_zero i), by rw [answer_sleepCalls]; rfl,
          Or.inl ⟨hb, rfl, answer_flockCalls pb exclusive timeout t w, _, answer_trace pb exclusive timeout t w⟩⟩

/-- Without a timeout the loop returns the first answer that is not
`EWOULDBLOCK`, after one attempt for each answer up to it. -/
theorem flockLoop_first_answer (pb : DB) (exclusive : Bool) (timeout : Duration)
    (hto : timeout ≤ 0) :
    ∀ (k : Nat) (t : Time) (w : World),
      (∀ i, i < k → w.flockResp i = some EWOULDBLOCK) →
      w.flockResp k ≠ some EWOULDBLOCK →
      ∃ w', (∀ fuel, k + 1 ≤ fuel →
          flockLoop fuel pb exclusive timeout t w = some (errOf (w.flockResp k), w')) ∧
        flockCalls w'.trace = flockCalls w.trace + (k + 1) ∧
        sleepCalls w'.trace = sleepCalls w.trace + k := by
  intro k
  induction k with
  | zero =>
    intro t w _ hk
    have hn : ¬ timedOut timeout t w := fun h => absurd h.2.1 (not_lt.mpr hto)
    refine ⟨_, ?_, answer_flockCalls pb exclusive timeout t w,
      answer_sleepCalls pb exclusive timeout t w⟩
    intro fuel hf
    obtain ⟨f, rfl⟩ : ∃ f, fuel = f + 1 := ⟨fuel - 1, by omega⟩
    exact flockLoop_answer f pb exclusive timeout t w hn hk
  | succ k ih =>
    intro t w hbusy hk
    have hn : ¬ timedOut timeout t w := fun h => absurd h.2.1 (not_lt.mpr hto)
    have h0 : w.flockResp 0 = some EWOULDBLOCK := hbusy 0 (by omega)
    obtain ⟨w', hrun, hfc, hsc⟩ := ih (headTime t w)
      (busyStep pb exclusive (headWorld timeout t w))
      (fun i hi => by rw [next_flockResp]; exact hbusy (i + 1) (by omega))
      (by rw [next_flockResp]; exact hk)
    refine ⟨w', ?_, by rw [hfc, next_flockCalls]; omega, by rw [hsc, next_sleepCalls]; omega⟩
    intro fuel hf
    obtain ⟨f, rfl⟩ : ∃ f, fuel = f + 1 := ⟨fuel - 1, by omega⟩
    rw [flockLoop_busy f pb exclusive timeout t w hn h0, hrun f (by omega), next_flockResp]


/-! ## C3: no timeout when `timeout <= 0` -/

/-- C3: with `timeout <= 0`, `flock` never returns `ErrTimeout`. Whenever it
returns, its result is the first answer of the lock call that is not
`EWOULDBLOCK` (nil, or that errno), given at attempt `k + 1` after `k` busy
answers. Conversely, when the answers are busy `k` times and then something
else, `flock` does return that answer, with every bound of at least `k + 1`
passes, after exactly `k + 1` attempts; in particular `N` busy answers followed
by success give nil after exactly `N + 1` attempts. -/
theorem flock_without_timeout_returns_first_answer (pb : DB) (mode : Nat) (exclusive : Bool)
    (timeout : Duration) (w : World) (hto : timeout ≤ 0) :
    (∀ fuel r w', flock fuel pb mode exclusive timeout w = some (r, w') →
      r ≠ some .ErrTimeout ∧
      ∃ k, (∀ i, i < k → w.flockResp i = some EWOULDBLOCK) ∧
        w.flockResp k ≠ some EWOULDBLOCK ∧ r = errOf (w.flockResp k) ∧
        flockCalls w'.trace = flockCalls w.trace + (k + 1)) ∧
    (∀ k, (∀ i, i < k → w.flockResp i = some EWOULDBLOCK) →
      w.flockResp k ≠ some EWOULDBLOCK →
      ∃ w', (∀ fuel, k + 1 ≤ fuel →
          flock fuel pb mode exclusive timeout w = some (errOf (w.flockResp k), w')) ∧
        flockCalls w'.trace = flockCalls w.trace + (k + 1)) ∧
    (∀ N, (∀ i, i < N → w.flockResp i = some EWOULDBLOCK) → w.flockResp N = none →
      ∃ w', (∀ fuel, N + 1 ≤ fuel →
          flock fuel pb mode exclusive timeout w = some (none, w')) ∧
        flockCalls w'.trace = flockCalls w.trace + (N + 1)) := by
  refine ⟨?_, ?_, ?_⟩
  · intro fuel r w' h
    obtain ⟨k, hk, _, hcase⟩ := flockLoop_run pb exclusive timeout fuel 0 w r w' h
    rcases hcase with ⟨h1, h2, h3, _⟩ | ⟨_, h2, _⟩
    · refine ⟨?_, k, hk, h1, h2, h3⟩
      rw [h2]
      cases w.flockResp k <;> simp [errOf]
    · exact absurd h2 (not_lt.mpr hto)
  · intro k hk hne
    obtain ⟨w', hrun, hfc, _⟩ := flockLoop_first_answer pb exclusive timeout hto k 0 w hk hne
    exact ⟨w', hrun, hfc⟩
  · intro N hN hfree
    have hne : w.flockResp N ≠ some EWOULDBLOCK := by rw [hfree]; simp
    obtain ⟨w', hrun, hfc, _⟩ := flockLoop_first_answer pb exclusive timeout hto N 0 w hN hne
    refine ⟨w', ?_, hfc⟩
    intro fuel hf
    have := hrun fuel hf
    rw [hfree] at this
    exact this

/-- C3 at `timeout = 0` in the world `busyTwice`: nil after three attempts. -/
theorem flock_without_timeout_returns_first_answer_witness :
    (0 : Duration) ≤ 0 ∧
    (flock 3 db0 0 true 0 busyTwice).map (fun r => (r.1, flockCalls r.2.trace)) =
      some (none, 3) ∧
    ((∀ fuel r w', flock fuel db0 0 true 0 busyTwice = some (r, w') →
      r ≠ some .ErrTimeout ∧
      ∃ k, (∀ i, i < k → busyTwice.flockResp i = some EWOULDBLOCK) ∧
        busyTwice.flockResp k ≠ some EWOULDBLOCK ∧ r = errOf (busyTwice.flockResp k) ∧
        flockCalls w'.trace = flockCalls busyTwice.trace + (k + 1)) ∧
    (∀ k, (∀ i, i < k → busyTwice.flockResp i = some EWOULDBLOCK) →
      busyTwice.flockResp k ≠ some EWOULDBLOCK →
      ∃ w', (∀ fuel, k + 1 ≤ fuel →
          flock fuel db0 0 true 0 busyTwice = some (errOf (busyTwice.flockResp k), w')) ∧
        flockCalls w'.trace = flockCalls busyTwice.trace + (k + 1)) ∧
    (∀ N, (∀ i, i < N → busyTwice.flockResp i = some EWOULDBLOCK) →
      busyTwice.flockResp N = none →
      ∃ w', (∀ fuel, N + 1 ≤ fuel →
          flock fuel db0 0 true 0 busyTwice = some (none, w')) ∧
        flockCalls w'.trace = flockCalls busyTwice.trace + (N + 1))) :=
  ⟨by decide, by decide,
    flock_without_timeout_returns_first_answer db0 0 true 0 busyTwice (by decide)⟩

/-! ## C5: fatal errors of the lock call -/

/-- C5: in any pass of the loop in which the lock call is made and answers an
errno `e` other than `EWOULDBLOCK`, `flock` returns at once exactly `e`, the
`Flock` call being the last platform call (no sleep, no further attempt). Over a
whole finished run of `flock` with `n` attempts: every attempt but the last was
answered `EWOULDBLOCK`, and an attempt answered by another errno `e` is the last
one, `e` is the result, and the sleeps made are only those after the earlier
busy answers. -/
theorem flock_returns_fatal_error_unretried (pb : DB) (mode : Nat) (exclusive : Bool)
    (timeout : Duration) :
    (∀ fuel t (w : World) e, w.flockResp 0 = some e → e ≠ EWOULDBLOCK →
      ¬ timedOut timeout t w →
      ∃ w', flockLoop (fuel + 1) pb exclusive timeout t w = some (some (.errno e), w') ∧
        w'.trace = w.trace ++ headEvents timeout t w ++
          [.Flock pb.fd (lockHow exclusive) (some e)] ∧
        flockCalls w'.trace = flockCalls w.trace + 1 ∧
        sleepCalls w'.trace = sleepCalls w.trace) ∧
    (∀ fuel (w : World) r w', flock fuel pb mode exclusive timeout w = some (r, w') →
      ∃ n, flockCalls w'.trace = flockCalls w.trace + n ∧
        (∀ i, i + 1 < n → w.flockResp i = some EWOULDBLOCK) ∧
        (∀ i e, i < n → w.flockResp i = some e → e ≠ EWOULDBLOCK →
          n = i + 1 ∧ r = some (.errno e) ∧
          sleepCalls w'.trace = sleepCalls w.trace + i ∧
          ∃ pre, w'.trace = pre ++ [.Flock pb.fd (lockHow exclusive) (some e)])) := by
  refine ⟨?_, ?_⟩
  · intro fuel t w e he hne hto
    have hr : w.flockResp 0 ≠ some EWOULDBLOCK := by rw [he]; simpa using hne
    refine ⟨_, ?_, ?_, answer_flockCalls pb exclusive timeout t w,
      answer_sleepCalls pb exclusive timeout t w⟩
    · rw [flockLoop_answer fuel pb exclusive timeout t w hto hr, he]; rfl
    · rw [answer_trace, he]
  · intro fuel w r w' h
    obtain ⟨k, hk, hs, hcase⟩ := flockLoop_run pb exclusive timeout fuel 0 w r w' h
    rcases hcase with ⟨h1, h2, h3, h4⟩ | ⟨_, _, h3, _⟩
    · refine ⟨k + 1, h3, fun i hi => hk i (by omega), ?_⟩
      intro i e hi he hne
      have hik : i = k := by
        by_contra hcon
        have := hk i (by omega)
        rw [he] at this
        exact hne (by simpa using this)
      subst hik
      rw [he] at h2 h4
      exact ⟨rfl, h2, hs, h4⟩
    · refine ⟨k, h3, fun i hi => hk i (by omega), ?_⟩
      intro i e hi he hne
      have := hk i hi
      rw [he] at this
      exact absurd (by simpa using this) hne


/-- C5 at the run `fatalRun`: busy once, then `EINVAL` at the second attempt. -/
theorem flock_returns_fatal_error_unretried_witness :
    fatalRun.1 = some (.errno EINVAL) ∧
    ∃ n, flockCalls fatalRun.2.trace = flockCalls fatalSecond.trace + n ∧
      (∀ i, i + 1 < n → fatalSecond.flockResp i = some EWOULDBLOCK) ∧
      (∀ i e, i < n → fatalSecond.flockResp i = some e → e ≠ EWOULDBLOCK →
        n = i + 1 ∧ fatalRun.1 = some (.errno e) ∧
        sleepCalls fatalRun.2.trace = sleepCalls fatalSecond.trace + i ∧
        ∃ pre, fatalRun.2.trace = pre ++ [.Flock db0.fd (lockHow false) (some e)]) :=
  ⟨by decide,
    (flock_returns_fatal_error_unretried db0 0 false 0).2 2 fatalSecond fatalRun.1 fatalRun.2 rfl⟩

/-! ## C9: where the timer starts -/

/-- The calls of a finished run of the loop are appended to the trace, and once
`t` is set every `time.Since` of the run is taken from that same `t`. -/
theorem flockLoop_trace (pb : DB) (exclusive : Bool) (timeout : Duration) :
    ∀ (fuel : Nat) (t : Time) (w : World) (r : Option GoError) (w' : World),
      flockLoop fuel pb exclusive timeout t w = some (r, w') →
      ∃ rest, w'.trace = w.trace ++ rest ∧
        (t ≠ 0 → ∀ t' d, Event.Since t' d ∈ rest → t' = t) := by
  intro fuel
  induction fuel with
  | zero => intro t w r w' h; simp [flockLoop] at h
  | succ f ih =>
    intro t w r w' h
    have hhead : t ≠ 0 → ∀ t' d, Event.Since t' d ∈ headEvents timeout t w → t' = t := by
      intro ht t' d hmem
      unfold headEvents at hmem
      rw [if_neg ht] at hmem
      split at hmem
      · simp only [List.mem_singleton, Event.Since.injEq] at hmem
        exact hmem.1
      · simp at hmem
    by_cases hto : timedOut timeout t w
    · rw [flockLoop_timedOut f pb exclusive timeout t w hto] at h
      simp only [Option.some.injEq, Prod.mk.injEq] at h
      obtain ⟨_, hw⟩ := h
      subst hw
      refine ⟨[.Since t (satDuration (w.clock - t))], rfl, ?_⟩
      intro _ t' d hmem
      simp only [List.mem_singleton, Event.Since.injEq] at hmem
      exact hmem.1
    · by_cases hb : w.flockResp 0 = some EWOULDBLOCK
      · rw [flockLoop_busy f pb exclusive timeout t w hto hb] at h
        obtain ⟨rest, hrest, hsince⟩ := ih _ _ r w' h
        refine ⟨(headEvents timeout t w ++
          [.Flock pb.fd (lockHow exclusive) (w.flockResp 0), .Sleep (50 * Millisecond)]) ++ rest,
          by rw [hrest, next_trace, List.append_assoc], ?_⟩
        intro ht t' d hmem
        have hht : headTime t w = t := by simp [headTime, ht]
        rw [hht] at hsince
        simp only [List.mem_append, List.mem_cons, List.mem_singleton, List.not_mem_nil,
          or_false, reduceCtorEq, false_or] at hmem
        rcases hmem with hmem | hmem
        · exact hhead ht t' d hmem
        · exact hsince ht t' d hmem
      · rw [flockLoop_answer f pb exclusive timeout t w hto hb] at h
        simp only [Option.some.injEq, Prod.mk.injEq] at h
        obtain ⟨_, hw⟩ := h
        subst hw
        refine ⟨headEvents timeout t w ++ [.Flock pb.fd (lockHow exclusive) (w.flockResp 0)],
          by rw [answer_trace, List.append_assoc], ?_⟩
        intro ht t' d hmem
        simp only [List.mem_append, List.mem_singleton, reduceCtorEq, or_false] at hmem
        exact hhead ht t' d hmem

/-- C9, as stated, fails: with a timeout of 100ms, in a world where the first
lock attempt takes 200ms to report busy, `flock` reads the clock (instant 1000)
before the first attempt, and at the next pass, 50ms after that attempt has
failed at instant 200001000, it measures 250ms from the instant 1000 and returns
`ErrTimeout`. The time of the first attempt is counted. -/
theorem flock_timer_counts_first_attempt :
    (flock 2 db0 0 true (100 * Millisecond) slowFirstAttempt).map (fun r => (r.1, r.2.trace)) =
      some (some .ErrTimeout,
        [.Now 1000, .Flock 3 (LOCK_EX ||| LOCK_NB) (some EWOULDBLOCK),
         .Sleep (50 * Millisecond), .Since 1000 (250 * Millisecond)]) ∧
    (sysFlock 3 (LOCK_EX ||| LOCK_NB) (Now slowFirstAttempt).2).2.clock = 200001000 ∧
    (flock 2 db0 0 true (100 * Millisecond) slowFirstAttempt).map
      (fun r => r.2.clock - 200001000) = some (50 * Millisecond) ∧
    50 * Millisecond ≤ 100 * Millisecond := by
  decide

/-- C9, amended: the timer of `flock` starts in the first pass of the loop,
before the first lock attempt. The first platform call of `flock` is the clock
reading `time.Now()` at the instant of entry; unless that reading is the zero
instant, it is the instant from which every `time.Since` of the call measures,
so the time the first attempt takes counts towards the timeout. `ErrTimeout` is
returned only after at least one lock attempt, on a `time.Since` reading greater
than `timeout` (and the time truly elapsed since `t` is then greater than
`timeout` too). -/
theorem flock_timer_starts_before_first_attempt (fuel : Nat) (pb : DB) (mode : Nat)
    (exclusive : Bool) (timeout : Duration) (w : World) (r : Option GoError) (w' : World)
    (h : flock fuel pb mode exclusive timeout w = some (r, w')) :
    ∃ rest, w'.trace = w.trace ++ Event.Now w.clock :: rest ∧
      (w.clock ≠ 0 → ∀ t d, Event.Since t d ∈ rest → t = w.clock) ∧
      (r = some .ErrTimeout →
        1 ≤ flockCalls rest ∧
        ∃ pre t, w'.trace = pre ++ [.Since t (satDuration (w'.clock - t))] ∧
          timeout < satDuration (w'.clock - t) ∧ timeout < w'.clock - t) := by
  have hrun := flockLoop_run pb exclusive timeout fuel 0 w r w' h
  have hlast : ∀ rest, w'.trace = w.trace ++ Event.Now w.clock :: rest →
      r = some .ErrTimeout →
        1 ≤ flockCalls rest ∧
        ∃ pre t, w'.trace = pre ++ [.Since t (satDuration (w'.clock - t))] ∧
          timeout < satDuration (w'.clock - t) ∧ timeout < w'.clock - t := by
    intro rest hrest hr
    obtain ⟨k, _, _, hcase⟩ := hrun
    rcases hcase with ⟨_, h2, _⟩ | ⟨_, _, h3, h4, h5⟩
    · rw [hr] at h2
      cases hq : w.flockResp k <;> simp [errOf, hq] at h2
    · refine ⟨?_, h5⟩
      have hk := h4 rfl
      rw [hrest, flockCalls_append] at h3
      have hc : flockCalls (Event.Now w.clock :: rest) = flockCalls rest := by
        simp [flockCalls, Event.isFlock]
      omega
  have hhe : headEvents timeout 0 w = [.Now w.clock] := by simp [headEvents]
  have hnt : ¬ timedOut timeout 0 w := fun hc => hc.1 rfl
  cases fuel with
  | zero => simp [flock, flockLoop] at h
  | succ f =>
    unfold flock at h
    by_cases hb : w.flockResp 0 = some EWOULDBLOCK
    · rw [flockLoop_busy f pb exclusive timeout 0 w hnt hb] at h
      obtain ⟨rest, hrest, hsince⟩ := flockLoop_trace pb exclusive timeout f _ _ r w' h
      have htr : w'.trace = w.trace ++ Event.Now w.clock ::
          ([.Flock pb.fd (lockHow exclusive) (w.flockResp 0), .Sleep (50 * Millisecond)] ++ rest) := by
        rw [hrest, next_trace, hhe]
        simp
      refine ⟨_, htr, ?_, hlast _ htr⟩
      intro hc t d hmem
      have hht : headTime 0 w = w.clock := by simp [headTime]
      rw [hht] at hsince
      simp only [List.mem_append, List.mem_cons, List.mem_singleton, List.not_mem_nil,
        or_false, reduceCtorEq, false_or] at hmem
      exact hsince hc t d hmem
    · rw [flockLoop_answer f pb exclusive timeout 0 w hnt hb] at h
      simp only [Option.some.injEq, Prod.mk.injEq] at h
      obtain ⟨_, hw⟩ := h
      have htr : w'.trace = w.trace ++ Event.Now w.clock ::
          [.Flock pb.fd (lockHow exclusive) (w.flockResp 0)] := by
        rw [← hw, answer_trace, hhe]
        simp
      refine ⟨_, htr, ?_, hlast _ htr⟩
      intro _ t d hmem
      simp at hmem

/-- The amended C9 at the run `slowRun`. -/
theorem flock_timer_starts_before_first_attempt_witness :
    ∃ rest, slowRun.2.trace = slowFirstAttempt.trace ++ Event.Now slowFirstAttempt.clock :: rest ∧
      (slowFirstAttempt.clock ≠ 0 →
        ∀ t d, Event.Since t d ∈ rest → t = slowFirstAttempt.clock) ∧
      (slowRun.1 = some .ErrTimeout →
        1 ≤ flockCalls rest ∧
        ∃ pre t, slowRun.2.trace = pre ++ [.Since t (satDuration (slowRun.2.clock - t))] ∧
          100 * Millisecond < satDuration (slowRun.2.clock - t) ∧
          100 * Millisecond < slowRun.2.clock - t) :=
  flock_timer_starts_before_first_attempt 2 db0 0 true (100 * Millisecond) slowFirstAttempt
    slowRun.1 slowRun.2 rfl


/-! ## C4: the timeout -/

/-- With `timeout = math.MaxInt64` and a lock that is always busy the loop never
returns: no `time.Since` reading is above the largest duration. -/
theorem flockLoop_max_timeout (pb : DB) (exclusive : Bool) :
    ∀ (fuel : Nat) (t : Time) (w : World), (∀ i, w.flockResp i = some EWOULDBLOCK) →
      flockLoop fuel pb exclusive maxDuration t w = none := by
  intro fuel
  induction fuel with
  | zero => intro t w _; rfl
  | succ f ih =>
    intro t w hbusy
    have hT : ¬ timedOut maxDuration t w := fun h =>
      absurd h.2.2 (not_lt.mpr (satDuration_le_max _))
    rw [flockLoop_busy f pb exclusive maxDuration t w hT (hbusy 0)]
    exact ih _ _ (fun i => by rw [next_flockResp]; exact hbusy (i + 1))

/-- In a world where the lock is always busy and the clock moves only by the
50ms of each sleep, the loop entered with `t` set and a `timeout` below
`math.MaxInt64` returns `ErrTimeout` at the first `time.Since` reading above
`timeout`. -/
theorem flockLoop_ideal (pb : DB) (exclusive : Bool) (timeout : Duration) (hto : 0 < timeout)
    (hmax : timeout < maxDuration) :
    ∀ (N : Nat) (t : Time) (w : World), t ≠ 0 →
      (∀ i, w.flockResp i = some EWOULDBLOCK) → (∀ i, w.flockDur i = 0) →
      (∀ i, w.oversleep i = 0) →
      timeout - (w.clock - t) < (N : Int) → w.clock - t ≤ timeout + 50 * Millisecond →
      ∃ w' mid,
        (∀ fuel, N + 1 ≤ fuel →
          flockLoop fuel pb exclusive timeout t w = some (some .ErrTimeout, w')) ∧
        w'.trace = w.trace ++ mid ++ [.Since t (satDuration (w'.clock - t))] ∧
        timeout < satDuration (w'.clock - t) ∧
        timeout < w'.clock - t ∧ w'.clock - t ≤ timeout + 50 * Millisecond ∧
        (∀ t' d, Event.Since t' d ∈ mid → t' = t ∧ d ≤ timeout) := by
  have hdone : ∀ (N : Nat) (t : Time) (w : World), timedOut timeout t w →
      w.clock - t ≤ timeout + 50 * Millisecond →
      ∃ w' mid,
        (∀ fuel, N + 1 ≤ fuel →
          flockLoop fuel pb exclusive timeout t w = some (some .ErrTimeout, w')) ∧
        w'.trace = w.trace ++ mid ++ [.Since t (satDuration (w'.clock - t))] ∧
        timeout < satDuration (w'.clock - t) ∧
        timeout < w'.clock - t ∧ w'.clock - t ≤ timeout + 50 * Millisecond ∧
        (∀ t' d, Event.Since t' d ∈ mid → t' = t ∧ d ≤ timeout) := by
    intro N t w hT hle
    have hclk : (Since t w).2.clock = w.clock := rfl
    refine ⟨(Since t w).2, [], ?_, by rw [since_trace, hclk]; simp, by rw [hclk]; exact hT.2.2,
      by rw [hclk]; exact lt_of_lt_satDuration timeout _ hto hT.2.2, by rw [hclk]; exact hle,
      by simp⟩
    intro fuel hf
    obtain ⟨f, rfl⟩ : ∃ f, fuel = f + 1 := ⟨fuel - 1, by omega⟩
    exact flockLoop_timedOut f pb exclusive timeout t w hT
  intro N
  induction N with
  | zero =>
    intro t w ht _ _ _ hN hle
    have hlt : timeout < w.clock - t := by simp at hN; linarith
    exact hdone 0 t w ⟨ht, hto, lt_satDuration_of_lt timeout _ hmax hlt hto⟩ hle
  | succ n ih =>
    intro t w ht hbusy hdur hsl hN hle
    by_cases hT : timedOut timeout t w
    · exact hdone (n + 1) t w hT hle
    · have hel : w.clock - t ≤ timeout := by
        by_contra hc
        exact hT ⟨ht, hto, lt_satDuration_of_lt timeout _ hmax (not_le.mp hc) hto⟩
      have hread : satDuration (w.clock - t) ≤ timeout := by
        by_contra hc
        exact hT ⟨ht, hto, not_le.mp hc⟩
      have hP : (50 * Millisecond : Int) = 50000000 := by decide
      have hht : headTime t w = t := by simp [headTime, ht]
      have hclk : (busyStep pb exclusive (headWorld timeout t w)).clock =
          w.clock + 50 * Millisecond := by
        rw [next_clock, hdur 0, hsl 0]; simp
      obtain ⟨w', mid, hrun, htr, h0, h1, h2, h3⟩ := ih t
        (busyStep pb exclusive (headWorld timeout t w)) ht
        (fun i => by rw [next_flockResp]; exact hbusy (i + 1))
        (fun i => by rw [next_flockDur]; exact hdur (i + 1))
        (fun i => by rw [next_oversleep]; exact hsl (i + 1))
        (by rw [hclk, hP]; push_cast at hN; linarith)
        (by rw [hclk]; linarith)
      refine ⟨w', (headEvents timeout t w ++
          [.Flock pb.fd (lockHow exclusive) (w.flockResp 0), .Sleep (50 * Millisecond)]) ++ mid,
        ?_, ?_, h0, h1, h2, ?_⟩
      · intro fuel hf
        obtain ⟨f, rfl⟩ : ∃ f, fuel = f + 1 := ⟨fuel - 1, by omega⟩
        rw [flockLoop_busy f pb exclusive timeout t w hT (hbusy 0), hht]
        exact hrun f (by omega)
      · rw [htr, next_trace]
        simp
      · intro t' d hmem
        simp only [List.mem_append, List.mem_cons, List.mem_singleton, List.not_mem_nil,
          or_false, reduceCtorEq, false_or] at hmem
        rcases hmem with hmem | hmem
        · unfold headEvents at hmem
          rw [if_neg ht, if_pos hto] at hmem
          simp only [List.mem_singleton, Event.Since.injEq] at hmem
          exact ⟨hmem.1, by rw [hmem.2]; exact hread⟩
        · exact h3 t' d hmem

/-- C4, as stated, fails: a `time.Duration` is a 64-bit integer and no
`time.Since` reading is above `math.MaxInt64`. With that `timeout` (which is
`> 0`), in the world `alwaysBusy`, where every lock attempt reports busy and the
clock moves by exactly the 50ms of each sleep, `flock` does not terminate: with
no bound on the passes does it return `ErrTimeout`, or anything. -/
theorem flock_max_timeout_never_returns :
    0 < maxDuration ∧
    (∀ i, alwaysBusy.flockResp i = some EWOULDBLOCK) ∧
    (∀ i, alwaysBusy.flockDur i = 0) ∧ (∀ i, alwaysBusy.oversleep i = 0) ∧
    (∀ d : Int, ¬ maxDuration < satDuration d) ∧
    ∀ fuel, flock fuel db0 0 true maxDuration alwaysBusy = none :=
  ⟨by decide, fun _ => rfl, fun _ => rfl, fun _ => rfl,
    fun d => not_lt.mpr (satDuration_le_max d),
    fun fuel => flockLoop_max_timeout db0 true fuel 0 alwaysBusy (fun _ => rfl)⟩

/-- C4, amended: with `0 < timeout < math.MaxInt64`, in a world where every lock
attempt reports busy and the clock moves by exactly the 50ms of each sleep and
not otherwise, `flock` terminates (with every large enough bound on the passes)
and returns `ErrTimeout`. The last platform call is the `time.Since` reading
that made it return, a reading above `timeout`; measured from `t`, a clock
reading taken by `flock` (the one at entry, unless that is the zero instant),
the time elapsed at the return is more than `timeout` and at most `timeout`
plus 50ms, and every earlier `time.Since` reading of the call, none of which
made it return, was at most `timeout`. -/
theorem flock_times_out_within_one_poll (pb : DB) (mode : Nat) (exclusive : Bool)
    (timeout : Duration) (w : World) (hto : 0 < timeout) (hmax : timeout < maxDuration)
    (hbusy : ∀ i, w.flockResp i = some EWOULDBLOCK)
    (hdur : ∀ i, w.flockDur i = 0) (hsl : ∀ i, w.oversleep i = 0) :
    ∃ (N : Nat) (w' : World) (t : Time) (mid : List Event),
      (∀ fuel, N ≤ fuel →
        flock fuel pb mode exclusive timeout w = some (some .ErrTimeout, w')) ∧
      w'.trace = w.trace ++ mid ++ [.Since t (satDuration (w'.clock - t))] ∧
      timeout < satDuration (w'.clock - t) ∧
      Event.Now t ∈ mid ∧ (w.clock ≠ 0 → t = w.clock) ∧
      timeout < w'.clock - t ∧ w'.clock - t ≤ timeout + 50 * Millisecond ∧
      (∀ t' d, Event.Since t' d ∈ mid → t' = t ∧ d ≤ timeout) := by
  have hP : (50 * Millisecond : Int) = 50000000 := by decide
  have hnt : ∀ w1 : World, ¬ timedOut timeout 0 w1 := fun w1 hc => hc.1 rfl
  have hhe : ∀ w1 : World, headEvents timeout 0 w1 = [.Now w1.clock] := fun w1 => by
    simp [headEvents]
  have hh0 : ∀ w1 : World, headTime 0 w1 = w1.clock := fun w1 => by simp [headTime]
  -- one pass with `t` zero: the clock is read, the attempt is busy, 50ms pass
  have hpass : ∀ w1 : World, (∀ i, w1.flockResp i = some EWOULDBLOCK) →
      (∀ i, w1.flockDur i = 0) → (∀ i, w1.oversleep i = 0) →
      (∀ i, (busyStep pb exclusive (headWorld timeout 0 w1)).flockResp i = some EWOULDBLOCK) ∧
      (∀ i, (busyStep pb exclusive (headWorld timeout 0 w1)).flockDur i = 0) ∧
      (∀ i, (busyStep pb exclusive (headWorld timeout 0 w1)).oversleep i = 0) ∧
      (busyStep pb exclusive (headWorld timeout 0 w1)).clock = w1.clock + 50 * Millisecond := by
    intro w1 h1 h2 h3
    refine ⟨fun i => by rw [next_flockResp]; exact h1 _, fun i => by rw [next_flockDur]; exact h2 _,
      fun i => by rw [next_oversleep]; exact h3 _, ?_⟩
    rw [next_clock, h2 0, h3 0]; simp
  have hbound : timeout - 50 * Millisecond < (timeout.toNat : Int) := by
    rw [Int.toNat_of_nonneg (le_of_lt hto), hP]; linarith
  by_cases hc : w.clock = 0
  · -- the reading at entry is the zero instant: `t` is read again in the second pass
    obtain ⟨b1, b2, b3, b4⟩ := hpass w hbusy hdur hsl
    obtain ⟨c1, c2, c3, c4⟩ := hpass _ b1 b2 b3
    have ht : (busyStep pb exclusive (headWorld timeout 0 w)).clock ≠ 0 := by
      rw [b4, hc, hP]; decide
    obtain ⟨w', mid, hrun, htr, h0, h1, h2, h3⟩ := flockLoop_ideal pb exclusive timeout hto hmax
      timeout.toNat _ (busyStep pb exclusive (headWorld timeout 0
        (busyStep pb exclusive (headWorld timeout 0 w)))) ht c1 c2 c3
      (by rw [c4]; linarith) (by rw [c4]; linarith)
    refine ⟨timeout.toNat + 3, w', (busyStep pb exclusive (headWorld timeout 0 w)).clock,
      (headEvents timeout 0 w ++
        [.Flock pb.fd (lockHow exclusive) (w.flockResp 0), .Sleep (50 * Millisecond)]) ++
      ((headEvents timeout 0 (busyStep pb exclusive (headWorld timeout 0 w)) ++
        [.Flock pb.fd (lockHow exclusive)
          ((busyStep pb exclusive (headWorld timeout 0 w)).flockResp 0),
         .Sleep (50 * Millisecond)]) ++ mid),
      ?_, ?_, h0, ?_, fun hne => absurd hc hne, h1, h2, ?_⟩
    · intro fuel hf
      obtain ⟨f, rfl⟩ : ∃ f, fuel = f + 2 := ⟨fuel - 2, by omega⟩
      unfold flock
      rw [flockLoop_busy (f + 1) pb exclusive timeout 0 w (hnt w) (hbusy 0), hh0, hc,
        flockLoop_busy f pb exclusive timeout 0 _ (hnt _) (b1 0), hh0]
      exact hrun f (by omega)
    · rw [htr, next_trace, next_trace]
      simp only [List.append_assoc]
    · rw [hhe, hhe]
      simp
    · intro t' d hmem
      simp only [hhe, List.mem_append, List.mem_cons, List.mem_singleton, List.not_mem_nil,
        or_false, reduceCtorEq, false_or] at hmem
      exact h3 t' d hmem
  · obtain ⟨b1, b2, b3, b4⟩ := hpass w hbusy hdur hsl
    obtain ⟨w', mid, hrun, htr, h0, h1, h2, h3⟩ := flockLoop_ideal pb exclusive timeout hto hmax
      timeout.toNat w.clock (busyStep pb exclusive (headWorld timeout 0 w)) hc b1 b2 b3
      (by rw [b4]; linarith) (by rw [b4]; linarith)
    refine ⟨timeout.toNat + 2, w', w.clock,
      (headEvents timeout 0 w ++
        [.Flock pb.fd (lockHow exclusive) (w.flockResp 0), .Sleep (50 * Millisecond)]) ++ mid,
      ?_, ?_, h0, ?_, fun _ => rfl, h1, h2, ?_⟩
    · intro fuel hf
      obtain ⟨f, rfl⟩ : ∃ f, fuel = f + 1 := ⟨fuel - 1, by omega⟩
      unfold flock
      rw [flockLoop_busy f pb exclusive timeout 0 w (hnt w) (hbusy 0), hh0]
      exact hrun f (by omega)
    · rw [htr, next_trace]
      simp only [List.append_assoc]
    · rw [hhe]
      simp
    · intro t' d hmem
      simp only [hhe, List.mem_append, List.mem_cons, List.mem_singleton, List.not_mem_nil,
        or_false, reduceCtorEq, false_or] at hmem
      exact h3 t' d hmem

/-- The amended C4 at a timeout of 120ms in the world `alwaysBusy`: `ErrTimeout`
150ms after entry, after three attempts. -/
theorem flock_times_out_within_one_poll_witness :
    (flock 4 db0 0 true (120 * Millisecond) alwaysBusy).map
      (fun r => (r.1, r.2.clock - alwaysBusy.clock, flockCalls r.2.trace)) =
      some (some .ErrTimeout, 150 * Millisecond, 3) ∧
    ∃ (N : Nat) (w' : World) (t : Time) (mid : List Event),
      (∀ fuel, N ≤ fuel →
        flock fuel db0 0 true (120 * Millisecond) alwaysBusy = some (some .ErrTimeout, w')) ∧
      w'.trace = alwaysBusy.trace ++ mid ++ [.Since t (satDuration (w'.clock - t))] ∧
      120 * Millisecond < satDuration (w'.clock - t) ∧
      Event.Now t ∈ mid ∧ (alwaysBusy.clock ≠ 0 → t = alwaysBusy.clock) ∧
      120 * Millisecond < w'.clock - t ∧ w'.clock - t ≤ 120 * Millisecond + 50 * Millisecond ∧
      (∀ t' d, Event.Since t' d ∈ mid → t' = t ∧ d ≤ 120 * Millisecond) :=
  ⟨by decide,
    flock_times_out_within_one_poll db0 0 true (120 * Millisecond) alwaysBusy (by decide)
      (by decide) (fun _ => rfl) (fun _ => rfl) (fun _ => rfl)⟩

end Pages
